import Mathlib

/-!
Verification development for the site-change-monitor repository
(single source file `src/main.py`).

The Python source is embedded shallowly:

* text values are Lean `String`s (Python `str` indexes code points, as
  does `String.data : List Char`);
* `normalize_text`, `sha256`, `build_diff`, `load_state`, and the pure
  tail of `main` (lines 223-272: truncation, hashing, change flag,
  snippet, diff, new state record) are translated function by function;
* `difflib.unified_diff` / `difflib.SequenceMatcher` (the library code
  `build_diff` runs) is embedded following CPython's `difflib.py`;
* file-system effects are modelled by explicit inputs/outputs
  (the loaded state fields, the produced state record, the sequence of
  characters flushed by `save_state`).
-/

/-- Python `str.isspace` / the whitespace set used by `str.split()`:
ASCII whitespace, the C1 separators, NBSP and the Unicode space
separators. -/
def pyIsSpace (c : Char) : Bool :=
  let n := c.toNat
  n == 0x20 || n == 0x09 || n == 0x0a || n == 0x0d || n == 0x0b || n == 0x0c ||
  n == 0x1c || n == 0x1d || n == 0x1e || n == 0x1f || n == 0x85 || n == 0xa0 ||
  n == 0x1680 || (0x2000 ≤ n && n ≤ 0x200a) || n == 0x2028 || n == 0x2029 ||
  n == 0x202f || n == 0x205f || n == 0x3000

/-- Worker for Python `s.split()` (split on runs of whitespace, dropping
empty tokens); `acc` holds the reversed current token. -/
def splitAux : List Char → List Char → List (List Char)
  | [], acc => if acc = [] then [] else [acc.reverse]
  | c :: cs, acc =>
    if pyIsSpace c then
      if acc = [] then splitAux cs [] else acc.reverse :: splitAux cs []
    else splitAux cs (c :: acc)

/-- Python `s.split()` with no separator argument. -/
def pySplit (l : List Char) : List (List Char) := splitAux l []

/-- Python `" ".join(tokens)`. -/
def joinSpace : List (List Char) → List Char
  | [] => []
  | [t] => t
  | t :: ts => t ++ ' ' :: joinSpace ts

/-- Python `s.strip()`: drop leading and trailing whitespace. -/
def pyStrip (l : List Char) : List Char :=
  ((l.dropWhile pyIsSpace).reverse.dropWhile pyIsSpace).reverse

/-- Embeds `normalize_text` (src/main.py lines 40-42):
`" ".join(s.split()).strip()`. -/
def normalize_text (s : String) : String :=
  ⟨pyStrip (joinSpace (pySplit s.data))⟩

/-- A token is "good" when it is nonempty and contains no whitespace;
`s.split()` produces exactly such tokens. -/
def goodTok (t : List Char) : Prop := t ≠ [] ∧ ∀ c ∈ t, pyIsSpace c = false

theorem splitAux_good (l : List Char) :
    ∀ acc, (∀ c ∈ acc, pyIsSpace c = false) →
      ∀ t ∈ splitAux l acc, goodTok t := by
  induction l with
  | nil =>
    intro acc hacc t ht
    by_cases hne : acc = []
    · simp [splitAux, hne] at ht
    · simp [splitAux, hne] at ht
      subst ht
      exact ⟨by simpa using hne, fun c hc => hacc c (List.mem_reverse.mp hc)⟩
  | cons c cs ih =>
    intro acc hacc t ht
    by_cases hsp : pyIsSpace c
    · by_cases hne : acc = []
      · simp [splitAux, hsp, hne] at ht
        exact ih [] (by simp) t ht
      · simp [splitAux, hsp, hne] at ht
        rcases ht with h | h
        · subst h
          exact ⟨by simpa using hne, fun x hx => hacc x (List.mem_reverse.mp hx)⟩
        · exact ih [] (by simp) t h
    · rw [show splitAux (c :: cs) acc = splitAux cs (c :: acc) by
        simp [splitAux, hsp]] at ht
      refine ih (c :: acc) ?_ t ht
      intro x hx
      rcases List.mem_cons.mp hx with h | h
      · subst h; exact Bool.eq_false_iff.mpr hsp
      · exact hacc x h

theorem pySplit_good (l : List Char) : ∀ t ∈ pySplit l, goodTok t :=
  splitAux_good l [] (by simp)

theorem splitAux_append_token (tok : List Char)
    (htok : ∀ c ∈ tok, pyIsSpace c = false) :
    ∀ rest acc, splitAux (tok ++ rest) acc = splitAux rest (tok.reverse ++ acc) := by
  induction tok with
  | nil => intro rest acc; simp
  | cons c cs ih =>
    intro rest acc
    have hc : pyIsSpace c = false := htok c (by simp)
    have hcs : ∀ x ∈ cs, pyIsSpace x = false := fun x hx => htok x (by simp [hx])
    have h1 : splitAux ((c :: cs) ++ rest) acc = splitAux (cs ++ rest) (c :: acc) := by
      simp [splitAux, hc]
    rw [h1, ih hcs rest (c :: acc)]
    simp

theorem splitAux_space (rest : List Char) (acc : List Char) :
    splitAux (' ' :: rest) acc =
      if acc = [] then splitAux rest [] else acc.reverse :: splitAux rest [] := by
  have h : pyIsSpace ' ' = true := by decide
  simp [splitAux, h]

theorem head?_append_of_ne_nil {α : Type} (l m : List α) (h : l ≠ []) :
    (l ++ m).head? = l.head? := by
  cases l with
  | nil => exact absurd rfl h
  | cons a as => simp

theorem pySplit_joinSpace (ts : List (List Char)) (h : ∀ t ∈ ts, goodTok t) :
    pySplit (joinSpace ts) = ts := by
  induction ts with
  | nil => simp [pySplit, joinSpace, splitAux]
  | cons t ts ih =>
    have ht : goodTok t := h t (by simp)
    have htr : t.reverse ≠ [] := by simpa using ht.1
    have hts : ∀ u ∈ ts, goodTok u := fun u hu => h u (by simp [hu])
    cases ts with
    | nil =>
      show splitAux (joinSpace [t]) [] = [t]
      have h0 : joinSpace [t] = t ++ [] := by simp [joinSpace]
      rw [h0, splitAux_append_token t ht.2 [] []]
      simp [splitAux, htr]
    | cons u us =>
      show splitAux (joinSpace (t :: u :: us)) [] = t :: u :: us
      have hj : joinSpace (t :: u :: us) = t ++ ' ' :: joinSpace (u :: us) := by
        simp [joinSpace]
      rw [hj, splitAux_append_token t ht.2 _ [], List.append_nil, splitAux_space,
          if_neg htr, List.reverse_reverse]
      exact congrArg (t :: ·) (ih hts)

theorem dropWhile_eq_self_of_head (l : List Char)
    (h : ∀ c, l.head? = some c → pyIsSpace c = false) :
    l.dropWhile pyIsSpace = l := by
  cases l with
  | nil => simp
  | cons c cs => simp [List.dropWhile, h c rfl]

theorem joinSpace_ne_nil (ts : List (List Char)) (h : ∀ t ∈ ts, goodTok t)
    (hne : ts ≠ []) : joinSpace ts ≠ [] := by
  cases ts with
  | nil => exact absurd rfl hne
  | cons t ts =>
    have ht : goodTok t := h t (by simp)
    cases htc : t with
    | nil => exact absurd htc ht.1
    | cons a as => cases ts <;> simp [joinSpace, htc]

theorem joinSpace_head_good (ts : List (List Char)) (h : ∀ t ∈ ts, goodTok t) :
    ∀ c, (joinSpace ts).head? = some c → pyIsSpace c = false := by
  intro c hc
  cases ts with
  | nil => simp [joinSpace] at hc
  | cons t ts =>
    have ht : goodTok t := h t (by simp)
    have hhd : (joinSpace (t :: ts)).head? = t.head? := by
      cases ts with
      | nil => simp [joinSpace]
      | cons u us =>
        rw [show joinSpace (t :: u :: us) = t ++ ' ' :: joinSpace (u :: us) by
          simp [joinSpace]]
        exact head?_append_of_ne_nil t _ ht.1
    rw [hhd] at hc
    exact ht.2 c (List.mem_of_mem_head? hc)

theorem joinSpace_last_good (ts : List (List Char)) (h : ∀ t ∈ ts, goodTok t) :
    ∀ c, (joinSpace ts).reverse.head? = some c → pyIsSpace c = false := by
  induction ts with
  | nil => intro c hc; simp [joinSpace] at hc
  | cons t ts ih =>
    intro c hc
    have ht : goodTok t := h t (by simp)
    cases ts with
    | nil =>
      simp only [joinSpace] at hc
      exact ht.2 c (List.mem_reverse.mp (List.mem_of_mem_head? hc))
    | cons u us =>
      have hts : ∀ v ∈ u :: us, goodTok v := fun v hv => h v (by simp [hv])
      have hne : (joinSpace (u :: us)).reverse ≠ [] := by
        simpa using joinSpace_ne_nil (u :: us) hts (by simp)
      rw [show joinSpace (t :: u :: us) = t ++ ' ' :: joinSpace (u :: us) by
            simp [joinSpace],
          List.reverse_append, List.reverse_cons,
          head?_append_of_ne_nil _ _ (by simp [hne]),
          head?_append_of_ne_nil _ _ hne] at hc
      exact ih hts c hc

theorem pyStrip_join (ts : List (List Char)) (h : ∀ t ∈ ts, goodTok t) :
    pyStrip (joinSpace ts) = joinSpace ts := by
  unfold pyStrip
  rw [dropWhile_eq_self_of_head _ (joinSpace_head_good ts h),
      dropWhile_eq_self_of_head _ (joinSpace_last_good ts h),
      List.reverse_reverse]

theorem normalize_text_data (s : String) :
    (normalize_text s).data = joinSpace (pySplit s.data) := by
  show pyStrip (joinSpace (pySplit s.data)) = joinSpace (pySplit s.data)
  exact pyStrip_join _ (pySplit_good s.data)

/-- C10: normalization is idempotent. -/
theorem normalize_idempotent (s : String) :
    normalize_text (normalize_text s) = normalize_text s := by
  have h1 : (normalize_text s).data = joinSpace (pySplit s.data) :=
    normalize_text_data s
  have h2 : pySplit ((normalize_text s).data) = pySplit s.data := by
    rw [h1]; exact pySplit_joinSpace _ (pySplit_good s.data)
  apply String.ext
  rw [normalize_text_data (normalize_text s), h2, h1]

/-! ## UTF-8 and SHA-256 (the `hashlib.sha256(s.encode("utf-8")).hexdigest()` pipeline) -/

/-- UTF-8 encoding of one Unicode scalar value. -/
def utf8Char (n : Nat) : List Nat :=
  if n < 0x80 then [n]
  else if n < 0x800 then [0xc0 + n / 64, 0x80 + n % 64]
  else if n < 0x10000 then [0xe0 + n / 4096, 0x80 + n / 64 % 64, 0x80 + n % 64]
  else [0xf0 + n / 262144, 0x80 + n / 4096 % 64, 0x80 + n / 64 % 64, 0x80 + n % 64]

/-- Python `s.encode("utf-8")` as a byte list. -/
def utf8Encode (l : List Char) : List Nat :=
  (l.map (fun c => utf8Char c.toNat)).flatten

/-- 32-bit right rotation on naturals below `2 ^ 32`. -/
def rotr32 (n x : Nat) : Nat :=
  x / 2 ^ n + x % 2 ^ n * 2 ^ (32 - n)

/-- SHA-256 choice function. -/
def shaCh (e f g : Nat) : Nat :=
  Nat.xor (Nat.land e f) (Nat.land (Nat.xor 0xffffffff e) g)

/-- SHA-256 majority function. -/
def shaMaj (a b c : Nat) : Nat :=
  Nat.xor (Nat.xor (Nat.land a b) (Nat.land a c)) (Nat.land b c)

/-- SHA-256 big sigma 0. -/
def bsig0 (x : Nat) : Nat := Nat.xor (Nat.xor (rotr32 2 x) (rotr32 13 x)) (rotr32 22 x)

/-- SHA-256 big sigma 1. -/
def bsig1 (x : Nat) : Nat := Nat.xor (Nat.xor (rotr32 6 x) (rotr32 11 x)) (rotr32 25 x)

/-- SHA-256 small sigma 0. -/
def ssig0 (x : Nat) : Nat := Nat.xor (Nat.xor (rotr32 7 x) (rotr32 18 x)) (x / 2 ^ 3)

/-- SHA-256 small sigma 1. -/
def ssig1 (x : Nat) : Nat := Nat.xor (Nat.xor (rotr32 17 x) (rotr32 19 x)) (x / 2 ^ 10)

/-- The SHA-256 round constants (FIPS 180-4), written in decimal. -/
def shaK : List Nat :=
  [1116352408, 1899447441, 3049323471, 3921009573, 961987163, 1508970993, 2453635748, 2870763221,
   3624381080, 310598401, 607225278, 1426881987, 1925078388, 2162078206, 2614888103, 3248222580,
   3835390401, 4022224774, 264347078, 604807628, 770255983, 1249150122, 1555081692, 1996064986,
   2554220882, 2821834349, 2952996808, 3210313671, 3336571891, 3584528711, 113926993, 338241895,
   666307205, 773529912, 1294757372, 1396182291, 1695183700, 1986661051, 2177026350, 2456956037,
   2730485921, 2820302411, 3259730800, 3345764771, 3516065817, 3600352804, 4094571909, 275423344,
   430227734, 506948616, 659060556, 883997877, 958139571, 1322822218, 1537002063, 1747873779,
   1955562222, 2024104815, 2227730452, 2361852424, 2428436474, 2756734187, 3204031479, 3329325298]

/-- The eight 32-bit hash words. -/
structure Hash8 where
  h0 : Nat
  h1 : Nat
  h2 : Nat
  h3 : Nat
  h4 : Nat
  h5 : Nat
  h6 : Nat
  h7 : Nat

/-- SHA-256 initial hash value (FIPS 180-4), written in decimal. -/
def shaInit : Hash8 :=
  ⟨1779033703, 3144134277, 1013904242, 2773480762,
   1359893119, 2600822924, 528734635, 1541459225⟩

/-- Big-endian 8-byte encoding of a natural number. -/
def be64 (n : Nat) : List Nat :=
  (List.range 8).map (fun i => n / 2 ^ (8 * (7 - i)) % 256)

/-- SHA-256 message padding: `0x80`, zeros, 64-bit big-endian bit length. -/
def padMessage (msg : List Nat) : List Nat :=
  msg ++ 0x80 :: List.replicate ((64 - (msg.length + 9) % 64) % 64) 0 ++ be64 (8 * msg.length)

/-- Split a byte list into 64-byte blocks. -/
def chunks64 (l : List Nat) : List (List Nat) :=
  if h : l = [] then [] else l.take 64 :: chunks64 (l.drop 64)
termination_by l.length
decreasing_by
  rw [List.length_drop]
  exact Nat.sub_lt (by cases l with
    | nil => exact absurd rfl h
    | cons a as => simp) (by norm_num)

/-- Parse a 64-byte block into sixteen big-endian 32-bit words. -/
def words16 (block : List Nat) : List Nat :=
  (List.range 16).map (fun i =>
    block.getD (4 * i) 0 * 2 ^ 24 + block.getD (4 * i + 1) 0 * 2 ^ 16 +
    block.getD (4 * i + 2) 0 * 2 ^ 8 + block.getD (4 * i + 3) 0)

/-- Extend the 16-word schedule by the given number of words (48 for SHA-256). -/
def schedExtend : List Nat → Nat → List Nat
  | ws, 0 => ws
  | ws, n + 1 =>
    let t := ws.length
    schedExtend (ws ++ [(ssig1 (ws.getD (t - 2) 0) + ws.getD (t - 7) 0 +
      ssig0 (ws.getD (t - 15) 0) + ws.getD (t - 16) 0) % 2 ^ 32]) n

/-- The eight SHA-256 working registers. -/
structure Regs where
  a : Nat
  b : Nat
  c : Nat
  d : Nat
  e : Nat
  f : Nat
  g : Nat
  h : Nat

/-- One SHA-256 compression round. -/
def shaRound (w : List Nat) (r : Regs) (t : Nat) : Regs :=
  let t1 := (r.h + bsig1 r.e + shaCh r.e r.f r.g + shaK.getD t 0 + w.getD t 0) % 2 ^ 32
  let t2 := (bsig0 r.a + shaMaj r.a r.b r.c) % 2 ^ 32
  ⟨(t1 + t2) % 2 ^ 32, r.a, r.b, r.c, (r.d + t1) % 2 ^ 32, r.e, r.f, r.g⟩

/-- SHA-256 compression of one 64-byte block. -/
def compressBlock (H : Hash8) (block : List Nat) : Hash8 :=
  let w := schedExtend (words16 block) 48
  let r := (List.range 64).foldl (shaRound w) ⟨H.h0, H.h1, H.h2, H.h3, H.h4, H.h5, H.h6, H.h7⟩
  ⟨(H.h0 + r.a) % 2 ^ 32, (H.h1 + r.b) % 2 ^ 32, (H.h2 + r.c) % 2 ^ 32,
   (H.h3 + r.d) % 2 ^ 32, (H.h4 + r.e) % 2 ^ 32, (H.h5 + r.f) % 2 ^ 32,
   (H.h6 + r.g) % 2 ^ 32, (H.h7 + r.h) % 2 ^ 32⟩

/-- SHA-256 over a byte list. -/
def shaDigest (bytes : List Nat) : Hash8 :=
  (chunks64 (padMessage bytes)).foldl compressBlock shaInit

/-- Lowercase hexadecimal digit, as produced by `hexdigest()`. -/
def hexDigitChar (n : Nat) : Char :=
  if n < 10 then Char.ofNat (48 + n) else Char.ofNat (87 + n)

/-- Fixed-width (8 hex characters) rendering of one 32-bit word. -/
def wordHex (w : Nat) : List Char :=
  (List.range 8).map (fun i => hexDigitChar (w / 16 ^ (7 - i) % 16))

/-- The 64-character hex rendering of a hash value. -/
def hashHex (H : Hash8) : List Char :=
  wordHex H.h0 ++ wordHex H.h1 ++ wordHex H.h2 ++ wordHex H.h3 ++
  wordHex H.h4 ++ wordHex H.h5 ++ wordHex H.h6 ++ wordHex H.h7

/-- Embeds `sha256` (src/main.py lines 64-65):
`hashlib.sha256(s.encode("utf-8")).hexdigest()`. -/
def sha256 (s : String) : String :=
  ⟨hashHex (shaDigest (utf8Encode s.data))⟩

/-- The sixteen lowercase hex digits. -/
def hexAlphabet : List Char := "0123456789abcdef".data

theorem hexDigitChar_mem (m : Nat) (h : m < 16) : hexDigitChar m ∈ hexAlphabet := by
  interval_cases m <;> decide

theorem hashHex_length (H : Hash8) : (hashHex H).length = 64 := by
  simp [hashHex, wordHex]

theorem hashHex_mem (H : Hash8) : ∀ c ∈ hashHex H, c ∈ hexAlphabet := by
  intro c hc
  simp only [hashHex, wordHex, List.mem_append, List.mem_map, List.mem_range] at hc
  rcases hc with ((((((⟨i, _, h⟩ | ⟨i, _, h⟩) | ⟨i, _, h⟩) | ⟨i, _, h⟩) | ⟨i, _, h⟩) |
    ⟨i, _, h⟩) | ⟨i, _, h⟩) | ⟨i, _, h⟩ <;>
    exact h ▸ hexDigitChar_mem _ (Nat.mod_lt _ (by norm_num))

theorem sha256_length (s : String) : (sha256 s).length = 64 :=
  hashHex_length _

theorem sha256_ne_empty (s : String) : sha256 s ≠ "" := by
  intro h
  have := sha256_length s
  rw [h] at this
  simp [String.length] at this

/-- C8: the fingerprint is a pure function of the UTF-8 bytes of the text,
producing a fixed-length (64-character) lowercase hexadecimal digest with no
randomized seeding: equal texts always produce equal digests. -/
theorem sha256_deterministic_fixed_hex (T U : String) :
    sha256 (normalize_text T) = ⟨hashHex (shaDigest (utf8Encode (normalize_text T).data))⟩
    ∧ (sha256 (normalize_text T)).length = 64
    ∧ (∀ c ∈ (sha256 (normalize_text T)).data, c ∈ hexAlphabet)
    ∧ (normalize_text T = normalize_text U →
        sha256 (normalize_text T) = sha256 (normalize_text U)) := by
  refine ⟨rfl, sha256_length _, ?_, fun h => by rw [h]⟩
  intro c hc
  exact hashHex_mem _ c hc

/-- Witness for `sha256_deterministic_fixed_hex` at a concrete input. -/
theorem sha256_deterministic_fixed_hex_witness :
    normalize_text "abc" = normalize_text "abc" ∧
    sha256 (normalize_text "abc") = sha256 (normalize_text "abc") :=
  ⟨rfl, (sha256_deterministic_fixed_hex "abc" "abc").2.2.2 rfl⟩

/-! ## Python `str.splitlines` and `difflib` (the library code run by `build_diff`)

The embedding follows CPython `difflib.py`: `SequenceMatcher` with
`isjunk=None` (so the junk set is empty and the junk extension loops of
`find_longest_match` never run) and the default `autojunk` heuristic,
`get_matching_blocks`, `get_opcodes`, `get_grouped_opcodes(3)` and
`unified_diff(a, b, fromfile="previous", tofile="current", lineterm="")`. -/

/-- Python universal-newline boundaries used by `str.splitlines`
(besides the `"\r\n"` pair, which is handled separately). -/
def isLineBoundary (c : Char) : Bool :=
  let n := c.toNat
  n == 0x0a || n == 0x0d || n == 0x0b || n == 0x0c || n == 0x1c || n == 0x1d ||
  n == 0x1e || n == 0x85 || n == 0x2028 || n == 0x2029

/-- Worker for Python `str.splitlines()`; `acc` is the reversed current line. -/
def splitlinesAux : List Char → List Char → List String
  | [], acc => if acc = [] then [] else [⟨acc.reverse⟩]
  | '\r' :: '\n' :: cs, acc => ⟨acc.reverse⟩ :: splitlinesAux cs []
  | c :: cs, acc =>
    if isLineBoundary c then ⟨acc.reverse⟩ :: splitlinesAux cs []
    else splitlinesAux cs (c :: acc)

/-- Python `s.splitlines()`. -/
def splitlines (s : String) : List String := splitlinesAux s.data []

/-- The `b2j` index of `SequenceMatcher.__chain_b`: for each line, the
ascending list of its positions in `b`, with "popular" lines removed by the
`autojunk` heuristic when `b` has at least 200 lines. -/
def b2j (b : List String) (x : String) : List Nat :=
  let idxs := (List.range b.length).filter (fun j => b.getD j "" == x)
  if 200 ≤ b.length ∧ b.length / 100 + 1 < idxs.length then [] else idxs

/-- Inner loop of `find_longest_match` over the candidate `j` positions of
line `a[i]` (ascending): `continue` below `blo`, `break` at `bhi`, extend the
`j2len` chain and update the strictly-best block.  Dictionaries are modelled
as functions defaulting to `0`; Python's `j2len.get(j-1, 0)` at `j = 0` reads
the absent key `-1`, hence the explicit `j = 0` test. -/
def flmInner (j2len : Nat → Nat) (blo bhi i : Nat) :
    List Nat → (Nat → Nat) → Nat × Nat × Nat → ((Nat → Nat) × (Nat × Nat × Nat))
  | [], acc, best => (acc, best)
  | j :: js, acc, best =>
    if j < blo then flmInner j2len blo bhi i js acc best
    else if bhi ≤ j then (acc, best)
    else
      let k := (if j = 0 then 0 else j2len (j - 1)) + 1
      let acc2 := fun j2 => if j2 = j then k else acc j2
      let best2 := if best.2.2 < k then (i + 1 - k, j + 1 - k, k) else best
      flmInner j2len blo bhi i js acc2 best2

/-- Outer loop of `find_longest_match` over the rows `alo..ahi-1`. -/
def flmRows (a b : List String) (blo bhi : Nat) :
    List Nat → (Nat → Nat) → Nat × Nat × Nat → Nat × Nat × Nat
  | [], _, best => best
  | i :: is, j2len, best =>
    let r := flmInner j2len blo bhi i (b2j b (a.getD i "")) (fun _ => 0) best
    flmRows a b blo bhi is r.1 r.2

/-- The backward extension loop of `find_longest_match` (the junk variant is
vacuous because the junk set is empty).  The first `Nat` argument is fuel:
each iteration decreases `besti` by one, so any fuel of at least `besti`
iterations makes the function agree with the unbounded `while` loop; the
caller passes `besti + 1`. -/
def extendBack (a b : List String) (alo blo : Nat) :
    Nat → Nat → Nat → Nat → Nat × Nat × Nat
  | 0, besti, bestj, bestsize => (besti, bestj, bestsize)
  | fuel + 1, besti, bestj, bestsize =>
    if alo < besti ∧ blo < bestj ∧ a.getD (besti - 1) "" == b.getD (bestj - 1) "" then
      extendBack a b alo blo fuel (besti - 1) (bestj - 1) (bestsize + 1)
    else (besti, bestj, bestsize)

/-- The forward extension loop of `find_longest_match`.  The first `Nat`
argument is fuel: each iteration increases `besti + bestsize`, which stays
below `ahi`, so any fuel of at least `ahi` iterations makes the function
agree with the unbounded `while` loop; the caller passes `ahi + 1`. -/
def extendFwd (a b : List String) (ahi bhi : Nat) :
    Nat → Nat → Nat → Nat → Nat × Nat × Nat
  | 0, besti, bestj, bestsize => (besti, bestj, bestsize)
  | fuel + 1, besti, bestj, bestsize =>
    if besti + bestsize < ahi ∧ bestj + bestsize < bhi ∧
        a.getD (besti + bestsize) "" == b.getD (bestj + bestsize) "" then
      extendFwd a b ahi bhi fuel besti bestj (bestsize + 1)
    else (besti, bestj, bestsize)

/-- `SequenceMatcher.find_longest_match(alo, ahi, blo, bhi)`. -/
def find_longest_match (a b : List String) (alo ahi blo bhi : Nat) : Nat × Nat × Nat :=
  let best := flmRows a b blo bhi (List.range' alo (ahi - alo)) (fun _ => 0) (alo, blo, 0)
  let e := extendBack a b alo blo (best.1 + 1) best.1 best.2.1 best.2.2
  extendFwd a b ahi bhi (ahi + 1) e.1 e.2.1 e.2.2

/-- Recursive collection of matching blocks (the queue of
`get_matching_blocks`, emitted in sorted order).  The fuel argument only
bounds the recursion depth; the top-level call supplies more fuel than the
splitting recursion can consume, so it never runs out. -/
def matchingBlocksAux (a b : List String) :
    Nat → Nat → Nat → Nat → Nat → List (Nat × Nat × Nat)
  | 0, _, _, _, _ => []
  | fuel + 1, alo, ahi, blo, bhi =>
    let m := find_longest_match a b alo ahi blo bhi
    if m.2.2 = 0 then []
    else
      matchingBlocksAux a b fuel alo m.1 blo m.2.1 ++ [m] ++
      matchingBlocksAux a b fuel (m.1 + m.2.2) ahi (m.2.1 + m.2.2) bhi

/-- The adjacent-block merging pass at the end of `get_matching_blocks`. -/
def mergeBlocks : (Nat × Nat × Nat) → List (Nat × Nat × Nat) → List (Nat × Nat × Nat)
  | cur, [] => if cur.2.2 ≠ 0 then [cur] else []
  | cur, nxt :: rest =>
    if cur.1 + cur.2.2 = nxt.1 ∧ cur.2.1 + cur.2.2 = nxt.2.1 then
      mergeBlocks (cur.1, cur.2.1, cur.2.2 + nxt.2.2) rest
    else if cur.2.2 ≠ 0 then cur :: mergeBlocks nxt rest
    else mergeBlocks nxt rest

/-- `SequenceMatcher.get_matching_blocks()`, including the final sentinel. -/
def get_matching_blocks (a b : List String) : List (Nat × Nat × Nat) :=
  let raw := matchingBlocksAux a b (a.length + b.length + 1) 0 a.length 0 b.length
  mergeBlocks (0, 0, 0) raw ++ [(a.length, b.length, 0)]

/-- Opcode tags of `SequenceMatcher.get_opcodes()`. -/
inductive OpTag where
  | replace
  | delete
  | insert
  | equal
deriving DecidableEq, Repr

/-- One opcode `(tag, i1, i2, j1, j2)` of `get_opcodes()`. -/
structure Opcode where
  tag : OpTag
  a1 : Nat
  a2 : Nat
  b1 : Nat
  b2 : Nat
deriving DecidableEq, Repr

/-- The loop of `get_opcodes()` over the matching blocks. -/
def opcodesAux : Nat → Nat → List (Nat × Nat × Nat) → List Opcode
  | _, _, [] => []
  | i, j, (ai, bj, size) :: rest =>
    let tags : List Opcode :=
      if i < ai ∧ j < bj then [⟨.replace, i, ai, j, bj⟩]
      else if i < ai then [⟨.delete, i, ai, j, bj⟩]
      else if j < bj then [⟨.insert, i, ai, j, bj⟩]
      else []
    tags ++ (if size ≠ 0 then [⟨.equal, ai, ai + size, bj, bj + size⟩] else []) ++
      opcodesAux (ai + size) (bj + size) rest

/-- `SequenceMatcher.get_opcodes()`. -/
def get_opcodes (a b : List String) : List Opcode :=
  opcodesAux 0 0 (get_matching_blocks a b)

/-- Trimming of a leading `equal` opcode to `n = 3` context lines. -/
def trimHead : List Opcode → List Opcode
  | [] => []
  | c :: rest =>
    if c.tag = .equal then
      ⟨c.tag, max c.a1 (c.a2 - 3), c.a2, max c.b1 (c.b2 - 3), c.b2⟩ :: rest
    else c :: rest

/-- Trimming of a trailing `equal` opcode to `n = 3` context lines. -/
def trimLast (l : List Opcode) : List Opcode :=
  match l.getLast? with
  | none => []
  | some c =>
    l.dropLast ++
      [if c.tag = .equal then
        ⟨c.tag, c.a1, min c.a2 (c.a1 + 3), c.b1, min c.b2 (c.b1 + 3)⟩
      else c]

/-- Test for a group consisting of a single `equal` opcode (such groups are
not yielded by `get_grouped_opcodes`). -/
def isSingleEqual : List Opcode → Bool
  | [c] => c.tag == .equal
  | _ => false

/-- The group-building loop of `get_grouped_opcodes(3)`: split whenever an
`equal` range spans more than `2 * 3` lines. -/
def groupLoop : List Opcode → List Opcode → List (List Opcode)
  | group, [] => if group ≠ [] ∧ ¬(isSingleEqual group = true) then [group] else []
  | group, c :: rest =>
    if c.tag = .equal ∧ 6 < c.a2 - c.a1 then
      (group ++ [⟨c.tag, c.a1, min c.a2 (c.a1 + 3), c.b1, min c.b2 (c.b1 + 3)⟩]) ::
        groupLoop [⟨c.tag, max c.a1 (c.a2 - 3), c.a2, max c.b1 (c.b2 - 3), c.b2⟩] rest
    else groupLoop (group ++ [c]) rest

/-- `SequenceMatcher.get_grouped_opcodes(3)` on a precomputed opcode list. -/
def get_grouped_opcodes (codes : List Opcode) : List (List Opcode) :=
  let codes1 := if codes = [] then [⟨.equal, 0, 1, 0, 1⟩] else codes
  groupLoop [] (trimLast (trimHead codes1))

/-- Python string concatenation `c + line` for a single leading character
(diff line markers). -/
def tagLine (c : Char) (s : String) : String := ⟨c :: s.data⟩

/-- The `_format_range_unified` helper of `difflib`. -/
def formatRangeUnified (start stop : Nat) : String :=
  let beginning := start + 1
  let length := stop - start
  if length = 1 then toString beginning
  else toString (if length = 0 then start else beginning) ++ "," ++ toString length

/-- Python list slice `l[i:j]` (for in-range indices). -/
def pySliceList (l : List String) (i j : Nat) : List String :=
  (l.drop i).take (j - i)

/-- The per-opcode line rendering of `unified_diff`. -/
def renderOpcode (a b : List String) (c : Opcode) : List String :=
  match c.tag with
  | .equal => (pySliceList a c.a1 c.a2).map (tagLine ' ')
  | .replace => (pySliceList a c.a1 c.a2).map (tagLine '-') ++
      (pySliceList b c.b1 c.b2).map (tagLine '+')
  | .delete => (pySliceList a c.a1 c.a2).map (tagLine '-')
  | .insert => (pySliceList b c.b1 c.b2).map (tagLine '+')

/-- The per-group line rendering of `unified_diff` (`@@` header followed by
the marked lines; groups are always nonempty). -/
def renderGroup (a b : List String) (g : List Opcode) : List String :=
  match g.head?, g.getLast? with
  | some first, some last =>
    tagLine '@' ("@ -" ++ formatRangeUnified first.a1 last.a2 ++ " +" ++
      formatRangeUnified first.b1 last.b2 ++ " @@") ::
      (g.map (renderOpcode a b)).flatten
  | _, _ => []

/-- `difflib.unified_diff(a, b, fromfile="previous", tofile="current",
lineterm="")` as the list of emitted lines (the `---`/`+++` headers are
yielded before the first group only). -/
def unifiedDiffLines (a b : List String) : List String :=
  match get_grouped_opcodes (get_opcodes a b) with
  | [] => []
  | groups => "--- previous" :: "+++ current" ::
      (groups.map (renderGroup a b)).flatten

/-- The truncation loop of `build_diff` (src/main.py lines 179-184):
`for i, line in enumerate(diff): if i >= max_lines: out.append(marker); break;
out.append(line)`. -/
def truncAux (maxLines : Nat) : Nat → List String → List String
  | _, [] => []
  | i, line :: rest =>
    if maxLines ≤ i then ["... (diff truncated)"]
    else line :: truncAux maxLines (i + 1) rest

/-- The list of output lines accumulated by `build_diff` before joining. -/
def build_diff_lines (prev cur : String) (maxLines : Nat) : List String :=
  truncAux maxLines 0 (unifiedDiffLines (splitlines prev) (splitlines cur))

/-- Embeds `build_diff` (src/main.py lines 175-185). -/
def build_diff (prev cur : String) (maxLines : Nat) : String :=
  String.intercalate "\n" (build_diff_lines prev cur maxLines)

/-! ## State store, the pure tail of `main`, and the spec's classification -/

/-- Python string slice `s[:n]` for a nonnegative literal bound. -/
def strTake (s : String) (n : Nat) : String := ⟨s.data.take n⟩

/-- Python string slice `s[:n]` for an arbitrary `int` bound (negative bounds
count from the end, clamped at zero, as in Python). -/
def pySliceUpTo (s : String) (n : Int) : String :=
  if 0 ≤ n then ⟨s.data.take n.toNat⟩
  else ⟨s.data.take (s.data.length - n.natAbs)⟩

/-- The record written back by `main` (src/main.py lines 265-271); `main`
passes it to `save_state` unconditionally (line 272).  Fields in source
order: `target_url`, `last_checked_utc`, `last_hash`, `last_title`,
`last_text`. -/
structure StateOut where
  target_url : String
  last_checked_utc : String
  last_hash : String
  last_title : String
  last_text : String
deriving DecidableEq, Repr

/-- Everything the pure tail of `main` computes from its inputs. -/
structure RunOutput where
  cur_text : String
  cur_hash : String
  status : String
  snippet : String
  diff_text : String
  state_out : StateOut
deriving DecidableEq, Repr

/-- Embeds the pure tail of `main` (src/main.py lines 223-272): inputs are
the loaded state fields (`state.get("last_text", "")`,
`state.get("last_hash", "")`), the fetched-and-extracted text (the result of
`fetch_page_text`, which ends in `normalize_text`), `max_chars`
(`int(cfg.get("max_text_chars", 20000))`, unvalidated and possibly
non-positive), and the run metadata.  It performs lines 233-245 and builds
the `state_out` record of lines 265-271. -/
def mainRun (prev_text prev_hash fetched_text : String) (max_chars : Int)
    (target_url run_at page_title : String) : RunOutput :=
  let cur_text := pySliceUpTo fetched_text max_chars
  let cur_hash := sha256 cur_text
  let changed := !(prev_hash == "") && !(cur_hash == prev_hash)
  let status := if changed then "Change detected" else "No change detected"
  let snippet := strTake cur_text 500
  let diff_text :=
    if prev_text = "" then "(no previous snapshot yet — run once more to compare)"
    else build_diff (strTake prev_text 5000) (strTake cur_text 5000) 220
  ⟨cur_text, cur_hash, status, snippet, diff_text,
    ⟨target_url, run_at, cur_hash, page_title, cur_text⟩⟩

/-- The spec's three-way classification. -/
inductive Classification where
  | Unseen
  | Unchanged
  | Changed
deriving DecidableEq, Repr

/-- Specification-side definition (refinement target, following the spec's
words): `Unseen` iff no prior snapshot existed, `Unchanged` iff a previous
digest is present and equals the current digest, otherwise `Changed`.  It is
phrased over the digests the code compares at line 236 (`changed = prev_hash
!= "" and cur_hash != prev_hash`); a previous digest is "present" exactly
when the loaded `last_hash` is nonempty, which is the code's own presence
test. -/
def classificationOf (prev_hash cur_hash : String) : Classification :=
  if prev_hash = "" then .Unseen
  else if cur_hash = prev_hash then .Unchanged
  else .Changed

/-- The two state fields `main` reads, as stored in the persisted JSON
object (absent keys modelled by `none`). -/
structure StateJson where
  last_text : Option String
  last_hash : Option String
deriving DecidableEq, Repr

/-- What `load_state` can hand back to `main`: a dict, or a truthy non-dict
JSON value (list, string, number) returned as-is. -/
inductive PyObj where
  | dict (d : StateJson)
  | nonDict
deriving DecidableEq, Repr

/-- The possible conditions of the persisted state file. -/
inductive StateFile where
  | missing
  | unparseable
  | jsonFalsy
  | jsonNonDict
  | jsonDict (d : StateJson)
deriving DecidableEq, Repr

/-- Embeds `load_state` (src/main.py lines 68-75): a missing file returns
`{}`; any exception while opening or parsing is swallowed and returns `{}`;
a parse result that is falsy (e.g. `null`, `[]`, `{}`) returns `{}` via
`json.load(f) or {}`; but a truthy non-dict JSON document (e.g. a file
containing `42` or `["x"]`) is returned unchanged. -/
def load_state : StateFile → PyObj
  | .missing => .dict ⟨none, none⟩
  | .unparseable => .dict ⟨none, none⟩
  | .jsonFalsy => .dict ⟨none, none⟩
  | .jsonNonDict => .nonDict
  | .jsonDict d => .dict d

/-- The exception `main` hits at lines 224-225 when the loaded state is not
a dict. -/
inductive PyError where
  | attributeError
deriving DecidableEq, Repr

/-- Models `main` lines 224-225: `state.get("last_text", "")` and
`state.get("last_hash", "")`; calling `.get` on a non-dict raises
`AttributeError`. -/
def statePrevFields : PyObj → Except PyError (String × String)
  | .dict d => .ok (d.last_text.getD "", d.last_hash.getD "")
  | .nonDict => .error .attributeError

/-- Models `save_state` (src/main.py lines 78-81) at the file level:
`STATE_PATH.open("w")` truncates the state file to empty immediately, and
`json.dump` then streams the serialized text into it.  The value is the file
content observed if the process dies after `k` characters have been flushed;
the previous content is destroyed at `k = 0` already.  There is no temporary
file and no atomic rename in the source. -/
def save_state_file_after (new_serialized : String) (k : Nat) : String :=
  ⟨new_serialized.data.take k⟩

/-- The text pipeline feeding the stored snapshot text: `fetch_page_text`
normalizes the extracted text (src/main.py line 59) and `main` then truncates
the normalized text (line 233). -/
def storedTextOf (raw : String) (max_chars : Int) : String :=
  pySliceUpTo (normalize_text raw) max_chars

/-- C7: in every state record the run constructs, the stored digest is the
fingerprint of the exact stored text. -/
theorem snapshot_digest_matches_text (p q fetched : String) (m : Int)
    (u t l : String) :
    (mainRun p q fetched m u t l).state_out.last_hash =
      sha256 ((mainRun p q fetched m u t l).state_out.last_text) := rfl

/-- C9: running the classifier twice on the same raw text, feeding the first
run's snapshot to the second run, always classifies the second run as
Unchanged (and the code prints "No change detected"). -/
theorem classify_twice_unchanged (p q fetched : String) (m : Int)
    (u t1 t2 l1 l2 : String) :
    classificationOf (mainRun p q fetched m u t1 l1).state_out.last_hash
        (mainRun (mainRun p q fetched m u t1 l1).state_out.last_text
          (mainRun p q fetched m u t1 l1).state_out.last_hash
          fetched m u t2 l2).cur_hash = .Unchanged
    ∧ (mainRun (mainRun p q fetched m u t1 l1).state_out.last_text
          (mainRun p q fetched m u t1 l1).state_out.last_hash
          fetched m u t2 l2).status = "No change detected" := by
  constructor
  · show classificationOf (sha256 (pySliceUpTo fetched m))
      (sha256 (pySliceUpTo fetched m)) = .Unchanged
    unfold classificationOf
    rw [if_neg (sha256_ne_empty _), if_pos rfl]
  · show (if (!(sha256 (pySliceUpTo fetched m) == "") &&
        !(sha256 (pySliceUpTo fetched m) == sha256 (pySliceUpTo fetched m))) then
        "Change detected" else "No change detected") = "No change detected"
    rw [beq_self_eq_true]
    simp

/-- C4 (amended direction): the run stores the truncation of the normalized
text (normalization happens inside `fetch_page_text`, truncation afterwards
in `main`), and fingerprints exactly that stored text. -/
theorem normalize_then_truncate (raw : String) (m : Int) (p q u t l : String) :
    (mainRun p q (normalize_text raw) m u t l).state_out.last_text =
      pySliceUpTo (normalize_text raw) m
    ∧ (mainRun p q (normalize_text raw) m u t l).state_out.last_text =
      storedTextOf raw m
    ∧ (mainRun p q (normalize_text raw) m u t l).state_out.last_hash =
      sha256 (storedTextOf raw m) := ⟨rfl, rfl, rfl⟩

/-- C4 counterexample: truncating first and normalizing afterwards (as the
claim states the order) produces a different stored text than the code,
already at `raw = "a  b"`, `max_text_chars = 3`. -/
theorem truncate_normalize_order_counterexample :
    storedTextOf "a  b" 3 ≠ normalize_text (pySliceUpTo "a  b" 3) := by decide

/-- C5: non-positive `max_text_chars` is not rejected: the run completes and
the state is overwritten.  With `max_text_chars = 0` the stored text becomes
empty; with `-3`, Python slice semantics drop the last three characters; with
an empty previous digest the run even reports "No change detected". -/
theorem config_bounds_not_validated :
    (mainRun "previous text" "prevhash" "hello world" 0 "u" "t" "l").state_out.last_text = ""
    ∧ (mainRun "" "" "hello world" 0 "u" "t" "l").status = "No change detected"
    ∧ (mainRun "previous text" "prevhash" "hello world" (-3) "u" "t"
        "l").state_out.last_text = "hello wo" := by
  refine ⟨by decide, rfl, by decide⟩

/-- C3: `save_state` is not atomic: the mode-"w" open truncates the state
file before any byte of the new serialization is flushed, so a failure at
that point has already destroyed the previous snapshot without writing the
new one. -/
theorem save_state_not_atomic (old new_ser : String) (h : old ≠ "") :
    save_state_file_after new_ser 0 = "" ∧ save_state_file_after new_ser 0 ≠ old := by
  constructor
  · rfl
  · show ("" : String) ≠ old
    exact fun hh => h hh.symm

/-- Witness for `save_state_not_atomic` at a concrete prior state. -/
theorem save_state_not_atomic_witness :
    ("old" : String) ≠ ""
    ∧ save_state_file_after "new" 0 = ""
    ∧ save_state_file_after "new" 0 ≠ "old" := by
  refine ⟨by decide, ?_, ?_⟩
  · exact (save_state_not_atomic "old" "new" (by decide)).1
  · exact (save_state_not_atomic "old" "new" (by decide)).2

/-- C6 counterexample: a persisted state file holding a truthy non-dict JSON
document is corrupt, but `load_state` returns it unchanged instead of the
absent value, and the next line of `main` then raises `AttributeError`
instead of classifying the run as Unseen. -/
theorem load_state_nondict_counterexample :
    load_state StateFile.jsonNonDict ≠ PyObj.dict ⟨none, none⟩
    ∧ statePrevFields (load_state StateFile.jsonNonDict) =
        .error .attributeError := by
  exact ⟨by decide, rfl⟩

/-- C6 (amended direction): a missing state file, a file that fails JSON
parsing, or a file whose parse result is falsy all load as the absent value
`{}`, `main` then reads empty previous fields without raising, and the
subsequent run classifies as Unseen. -/
theorem load_state_recovery (f : StateFile)
    (h : f = .missing ∨ f = .unparseable ∨ f = .jsonFalsy)
    (fetched : String) (m : Int) (u t l : String) :
    load_state f = .dict ⟨none, none⟩
    ∧ statePrevFields (load_state f) = .ok ("", "")
    ∧ classificationOf "" (mainRun "" "" fetched m u t l).cur_hash = .Unseen := by
  rcases h with rfl | rfl | rfl <;> exact ⟨rfl, rfl, rfl⟩

/-- Witness for `load_state_recovery` at a concrete corrupt state file. -/
theorem load_state_recovery_witness :
    (StateFile.unparseable = StateFile.missing ∨
      StateFile.unparseable = StateFile.unparseable ∨
      StateFile.unparseable = StateFile.jsonFalsy)
    ∧ (load_state .unparseable = .dict ⟨none, none⟩
      ∧ statePrevFields (load_state .unparseable) = .ok ("", "")
      ∧ classificationOf "" (mainRun "" "" "hello" 20000 "u" "t" "l").cur_hash =
          .Unseen) :=
  ⟨Or.inr (Or.inl rfl),
    load_state_recovery .unparseable (Or.inr (Or.inl rfl)) "hello" 20000 "u" "t" "l"⟩

/-! ## Behaviour of the diff pipeline on empty and single-line inputs -/

theorem extendBack_zeros (a b : List String) (f bj bs : Nat) :
    extendBack a b 0 0 f 0 bj bs = (0, bj, bs) := by
  cases f <;> simp [extendBack]

theorem extendFwd_done (a b : List String) (ahi bhi f bi bj bs : Nat)
    (h : ¬ bi + bs < ahi) : extendFwd a b ahi bhi f bi bj bs = (bi, bj, bs) := by
  cases f <;> simp [extendFwd, h]

theorem b2j_single (t : String) : b2j [t] t = [0] := by
  simp [b2j, List.range_succ, List.filter]

theorem flm_empty (a b : List String) (x y : Nat) :
    find_longest_match a b x x y y = (x, y, 0) := by
  unfold find_longest_match
  simp only [Nat.sub_self, List.range'_zero, flmRows]
  rw [show extendBack a b x y (x + 1) x y 0 = (x, y, 0) by
    cases x <;> simp [extendBack, lt_irrefl]]
  exact extendFwd_done a b x y (x + 1) x y 0 (by omega)

theorem flm_single (t : String) : find_longest_match [t] [t] 0 1 0 1 = (0, 0, 1) := by
  unfold find_longest_match
  simp only [flmRows, List.getD, List.get?, Option.getD]
  rw [b2j_single]
  rw [show (flmInner (fun _ => 0) 0 1 0 [0] (fun _ => 0) (0, 0, 0)).2 = (0, 0, 1) from by
    decide]
  simp only
  rw [extendBack_zeros]
  exact extendFwd_done [t] [t] 1 1 (1 + 1) 0 0 1 (by norm_num)

theorem matchingBlocksAux_empty (a b : List String) (f x y : Nat) :
    matchingBlocksAux a b f x x y y = [] := by
  cases f with
  | zero => rfl
  | succ n => simp [matchingBlocksAux, flm_empty]

theorem matchingBlocksAux_single_unfold (t : String) :
    matchingBlocksAux [t] [t] (2 + 1) 0 1 0 1 =
      (if (find_longest_match [t] [t] 0 1 0 1).2.2 = 0 then []
       else
         matchingBlocksAux [t] [t] 2 0 (find_longest_match [t] [t] 0 1 0 1).1 0
             (find_longest_match [t] [t] 0 1 0 1).2.1 ++
           [find_longest_match [t] [t] 0 1 0 1] ++
           matchingBlocksAux [t] [t] 2
             ((find_longest_match [t] [t] 0 1 0 1).1 +
               (find_longest_match [t] [t] 0 1 0 1).2.2) 1
             ((find_longest_match [t] [t] 0 1 0 1).2.1 +
               (find_longest_match [t] [t] 0 1 0 1).2.2) 1) := rfl

theorem matching_blocks_single (t : String) :
    get_matching_blocks [t] [t] = [(0, 0, 1), (1, 1, 0)] := by
  have h3 : matchingBlocksAux [t] [t] 3 0 1 0 1 = [(0, 0, 1)] := by
    rw [show (3 : Nat) = 2 + 1 from rfl, matchingBlocksAux_single_unfold, flm_single]
    norm_num
    rw [matchingBlocksAux_empty, matchingBlocksAux_empty]
    simp
  unfold get_matching_blocks
  simp only [List.length_singleton]
  rw [show (1 : Nat) + 1 + 1 = 3 from rfl, h3]
  decide

theorem unifiedDiffLines_single (t : String) : unifiedDiffLines [t] [t] = [] := by
  have h1 : get_opcodes [t] [t] = [⟨.equal, 0, 1, 0, 1⟩] := by
    unfold get_opcodes
    rw [matching_blocks_single]
    rfl
  unfold unifiedDiffLines
  rw [h1]
  exact rfl

theorem unifiedDiffLines_nil : unifiedDiffLines [] [] = [] := by decide

theorem splitlinesAux_no_break (l : List Char) :
    ∀ acc, (∀ c ∈ l, isLineBoundary c = false) →
    splitlinesAux l acc = if acc = [] ∧ l = [] then [] else [⟨acc.reverse ++ l⟩] := by
  induction l with
  | nil =>
    intro acc h
    by_cases hacc : acc = [] <;> simp [splitlinesAux, hacc]
  | cons c cs ih =>
    intro acc h
    have hc : isLineBoundary c = false := h c (by simp)
    have hcs : ∀ x ∈ cs, isLineBoundary x = false := fun x hx => h x (by simp [hx])
    have hcr : c ≠ '\r' := by
      intro hh
      rw [hh] at hc
      exact absurd hc (by decide)
    have hstep : splitlinesAux (c :: cs) acc = splitlinesAux cs (c :: acc) := by
      cases cs with
      | nil => simp [splitlinesAux, hc]
      | cons d ds =>
        by_cases hd : d = '\n'
        · subst hd
          conv_lhs => rw [splitlinesAux.eq_def]
          simp [hcr, hc]
        · conv_lhs => rw [splitlinesAux.eq_def]
          simp [hcr, hd, hc]
    rw [hstep, ih (c :: acc) hcs]
    simp

theorem splitlines_no_break (t : String)
    (h : ∀ c ∈ t.data, isLineBoundary c = false) :
    splitlines t = if t.data = [] then [] else [t] := by
  unfold splitlines
  rw [splitlinesAux_no_break t.data [] h]
  by_cases ht : t.data = []
  · simp [ht]
  · rw [if_neg (by simp [ht]), if_neg ht]
    show [(⟨List.reverse [] ++ t.data⟩ : String)] = [t]
    rfl

theorem build_diff_self_no_break (t : String) (m : Nat)
    (h : ∀ c ∈ t.data, isLineBoundary c = false) : build_diff t t m = "" := by
  unfold build_diff build_diff_lines
  rw [splitlines_no_break t h]
  by_cases ht : t.data = []
  · rw [if_pos ht, unifiedDiffLines_nil]
    rfl
  · rw [if_neg ht, unifiedDiffLines_single]
    rfl

/-! ## Truncation behaviour of `build_diff` and the truncation marker -/

theorem truncAux_all (m : Nat) :
    ∀ (l : List String) (i : Nat), i + l.length ≤ m → truncAux m i l = l := by
  intro l
  induction l with
  | nil => intro i _; rfl
  | cons x xs ih =>
    intro i h
    have hm : ¬ m ≤ i := by simp at h; omega
    simp only [truncAux, if_neg hm]
    rw [ih (i + 1) (by simp at h ⊢; omega)]

theorem truncAux_cut (m : Nat) :
    ∀ (l : List String) (i : Nat), i ≤ m → m < i + l.length →
      truncAux m i l = l.take (m - i) ++ ["... (diff truncated)"] := by
  intro l
  induction l with
  | nil => intro i h1 h2; simp at h2; omega
  | cons x xs ih =>
    intro i h1 h2
    by_cases hm : m ≤ i
    · have : m = i := le_antisymm (by omega) h1
      simp [truncAux, hm, this]
    · simp only [truncAux, if_neg hm]
      rw [ih (i + 1) (by omega) (by simp at h2 ⊢; omega)]
      rw [show m - i = (m - (i + 1)) + 1 by omega]
      simp [List.take_succ_cons]

theorem tagLine_ne_marker (c : Char) (s : String) (hc : c ≠ '.') :
    tagLine c s ≠ "... (diff truncated)" := by
  intro h
  apply hc
  have h1 : (tagLine c s).data.head? = some c := rfl
  rw [h] at h1
  have h2 : ("... (diff truncated)" : String).data.head? = some '.' := rfl
  rw [h2] at h1
  injection h1 with h1
  exact h1.symm

theorem renderOpcode_no_marker (a b : List String) (c : Opcode) :
    ∀ line ∈ renderOpcode a b c, line ≠ "... (diff truncated)" := by
  intro line hline
  unfold renderOpcode at hline
  rcases htag : c.tag <;> rw [htag] at hline <;>
    simp only [List.mem_map, List.mem_append] at hline
  · rcases hline with ⟨s, _, hs⟩ | ⟨s, _, hs⟩ <;>
      exact hs ▸ tagLine_ne_marker _ s (by decide)
  · rcases hline with ⟨s, _, hs⟩
    exact hs ▸ tagLine_ne_marker _ s (by decide)
  · rcases hline with ⟨s, _, hs⟩
    exact hs ▸ tagLine_ne_marker _ s (by decide)
  · rcases hline with ⟨s, _, hs⟩
    exact hs ▸ tagLine_ne_marker _ s (by decide)

theorem renderGroup_no_marker (a b : List String) (g : List Opcode) :
    ∀ line ∈ renderGroup a b g, line ≠ "... (diff truncated)" := by
  intro line hline
  cases g with
  | nil => simp [renderGroup] at hline
  | cons c cs =>
    rcases hlast : (c :: cs).getLast? with _ | last
    · rw [List.getLast?_eq_none_iff] at hlast
      exact absurd hlast (by simp)
    · unfold renderGroup at hline
      rw [List.head?_cons, hlast] at hline
      simp only [List.mem_cons, List.mem_flatten, List.mem_map] at hline
      rcases hline with h | ⟨ls, ⟨opc, _, hopc⟩, hmem⟩
      · exact h ▸ tagLine_ne_marker '@' _ (by decide)
      · exact renderOpcode_no_marker a b opc line (hopc ▸ hmem)

theorem unifiedDiffLines_no_marker (a b : List String) :
    ∀ line ∈ unifiedDiffLines a b, line ≠ "... (diff truncated)" := by
  intro line hline
  unfold unifiedDiffLines at hline
  rcases hg : get_grouped_opcodes (get_opcodes a b) with _ | ⟨g, gs⟩
  · rw [hg] at hline
    simp at hline
  · rw [hg] at hline
    simp only [List.mem_cons, List.mem_flatten, List.mem_map] at hline
    rcases hline with h | h | ⟨ls, ⟨grp, _, hgrp⟩, hmem⟩
    · exact h ▸ (by decide)
    · exact h ▸ (by decide)
    · exact renderGroup_no_marker a b grp line (hgrp ▸ hmem)

/-- C2 (amended direction): when the natural diff fits in `max_lines` all its
lines are emitted unchanged; when it exceeds `max_lines`, the output consists
of the first `max_lines` diff lines with the truncation marker *appended*,
i.e. exactly `max_lines + 1` lines ending in the marker; and the marker never
occurs among the natural diff lines, so it is distinguishable from real diff
content. -/
theorem build_diff_truncation (prev cur : String) (m : Nat) :
    ((unifiedDiffLines (splitlines prev) (splitlines cur)).length ≤ m →
      build_diff_lines prev cur m = unifiedDiffLines (splitlines prev) (splitlines cur))
    ∧ (m < (unifiedDiffLines (splitlines prev) (splitlines cur)).length →
      build_diff_lines prev cur m =
        (unifiedDiffLines (splitlines prev) (splitlines cur)).take m ++
          ["... (diff truncated)"]
      ∧ (build_diff_lines prev cur m).length = m + 1
      ∧ (build_diff_lines prev cur m).getLast? = some "... (diff truncated)")
    ∧ (∀ line ∈ unifiedDiffLines (splitlines prev) (splitlines cur),
        line ≠ "... (diff truncated)") := by
  refine ⟨?_, ?_, unifiedDiffLines_no_marker _ _⟩
  · intro h
    exact truncAux_all m _ 0 (by omega)
  · intro h
    have he : build_diff_lines prev cur m =
        (unifiedDiffLines (splitlines prev) (splitlines cur)).take (m - 0) ++
          ["... (diff truncated)"] :=
      truncAux_cut m _ 0 (by omega) (by omega)
    rw [Nat.sub_zero] at he
    refine ⟨he, ?_, ?_⟩
    · rw [he]
      simp only [List.length_append, List.length_take, List.length_cons,
        List.length_nil]
      omega
    · rw [he, List.getLast?_concat]

/-- C2 counterexample: at `max_lines = 4` and a five-line replacement, the
natural diff has 13 lines, and `build_diff` emits 5 = `max_lines + 1` output
lines (the marker is appended, not substituted for the last kept line), not
exactly `max_lines`. -/
theorem build_diff_truncation_counterexample :
    4 < (unifiedDiffLines (splitlines "a1\na2\na3\na4\na5")
        (splitlines "b1\nb2\nb3\nb4\nb5")).length
    ∧ (build_diff_lines "a1\na2\na3\na4\na5" "b1\nb2\nb3\nb4\nb5" 4).length ≠ 4
    ∧ (build_diff_lines "a1\na2\na3\na4\na5" "b1\nb2\nb3\nb4\nb5" 4).length = 5 := by
  refine ⟨by decide, by decide, by decide⟩

/-- Witness for `build_diff_truncation` at a concrete input. -/
theorem build_diff_truncation_witness :
    (unifiedDiffLines (splitlines "x") (splitlines "y")).length ≤ 10
    ∧ build_diff_lines "x" "y" 10 = unifiedDiffLines (splitlines "x") (splitlines "y") :=
  ⟨by decide, (build_diff_truncation "x" "y" 10).1 (by decide)⟩

/-! ## The run-level classification invariant (C1) -/

/-- C1 (amended direction): the status printed by the run coincides with the
spec's classification (`Changed` exactly when "Change detected"); the
classification is `Unchanged` iff a previous digest is present (nonempty) and
equals the current digest, and `Unseen` iff no previous digest is present.
The diff is empty whenever the previous stored text is nonempty, free of
line-break characters (as every text the program itself persists is, since
normalization collapses all whitespace), and its 5000-character bounded
prefix equals that of the current truncated text — in particular whenever the
stored text equals the current text, which makes the digests match.  When the
previous stored text is empty (in particular when no prior snapshot existed)
the diff field instead holds a fixed placeholder message. -/
theorem run_classification_and_diff (p q fetched : String) (m : Int) (u t l : String) :
    ((mainRun p q fetched m u t l).status = "Change detected" ↔
      classificationOf q (mainRun p q fetched m u t l).cur_hash = .Changed)
    ∧ (classificationOf q (mainRun p q fetched m u t l).cur_hash = .Unchanged ↔
      (q ≠ "" ∧ (mainRun p q fetched m u t l).cur_hash = q))
    ∧ (classificationOf q (mainRun p q fetched m u t l).cur_hash = .Unseen ↔ q = "")
    ∧ ((mainRun p q fetched m u t l).status = "No change detected" ↔
      classificationOf q (mainRun p q fetched m u t l).cur_hash ≠ .Changed)
    ∧ (p ≠ "" → (∀ c ∈ (strTake p 5000).data, isLineBoundary c = false) →
        strTake p 5000 = strTake (mainRun p q fetched m u t l).cur_text 5000 →
        (mainRun p q fetched m u t l).diff_text = "")
    ∧ (p = "" → (mainRun p q fetched m u t l).diff_text =
        "(no previous snapshot yet — run once more to compare)") := by
  have hcur : (mainRun p q fetched m u t l).cur_hash = sha256 (pySliceUpTo fetched m) :=
    rfl
  have hct : (mainRun p q fetched m u t l).cur_text = pySliceUpTo fetched m := rfl
  have hstatus : (mainRun p q fetched m u t l).status =
      (if (!(q == "") && !(sha256 (pySliceUpTo fetched m) == q)) then
        "Change detected" else "No change detected") := rfl
  have hclass : classificationOf q (mainRun p q fetched m u t l).cur_hash =
      (if q = "" then .Unseen
       else if sha256 (pySliceUpTo fetched m) = q then .Unchanged else .Changed) := rfl
  have hdiff : (mainRun p q fetched m u t l).diff_text =
      (if p = "" then "(no previous snapshot yet — run once more to compare)"
       else build_diff (strTake p 5000) (strTake (pySliceUpTo fetched m) 5000) 220) :=
    rfl
  refine ⟨?_, ?_, ?_, ?_, ?_, ?_⟩
  · by_cases hq : q = ""
    · have e1 : (q == "") = true := beq_iff_eq.mpr hq
      rw [hstatus, hclass, if_pos hq, e1]
      simp
    · have e1 : (q == "") = false := beq_eq_false_iff_ne.mpr hq
      by_cases hch : sha256 (pySliceUpTo fetched m) = q
      · have e2 : (sha256 (pySliceUpTo fetched m) == q) = true := beq_iff_eq.mpr hch
        rw [hstatus, hclass, if_neg hq, if_pos hch, e1, e2]
        simp
      · have e2 : (sha256 (pySliceUpTo fetched m) == q) = false :=
          beq_eq_false_iff_ne.mpr hch
        rw [hstatus, hclass, if_neg hq, if_neg hch, e1, e2]
        simp
  · rw [hclass, hcur]
    by_cases hq : q = ""
    · rw [if_pos hq]
      simp [hq]
    · rw [if_neg hq]
      by_cases hch : sha256 (pySliceUpTo fetched m) = q
      · rw [if_pos hch]
        simp [hq, hch]
      · rw [if_neg hch]
        simp [hq, hch]
  · rw [hclass]
    by_cases hq : q = ""
    · rw [if_pos hq]
      simp [hq]
    · rw [if_neg hq]
      by_cases hch : sha256 (pySliceUpTo fetched m) = q
      · rw [if_pos hch]
        simp [hq]
      · rw [if_neg hch]
        simp [hq]
  · by_cases hq : q = ""
    · have e1 : (q == "") = true := beq_iff_eq.mpr hq
      rw [hstatus, hclass, if_pos hq, e1]
      simp
    · have e1 : (q == "") = false := beq_eq_false_iff_ne.mpr hq
      by_cases hch : sha256 (pySliceUpTo fetched m) = q
      · have e2 : (sha256 (pySliceUpTo fetched m) == q) = true := beq_iff_eq.mpr hch
        rw [hstatus, hclass, if_neg hq, if_pos hch, e1, e2]
        simp
      · have e2 : (sha256 (pySliceUpTo fetched m) == q) = false :=
          beq_eq_false_iff_ne.mpr hch
        rw [hstatus, hclass, if_neg hq, if_neg hch, e1, e2]
        simp
  · intro hp hnb heq
    rw [hct] at heq
    rw [hdiff, if_neg hp, ← heq]
    exact build_diff_self_no_break _ 220 hnb
  · intro hp
    rw [hdiff, if_pos hp]

/-- C1 counterexample: on a first run (no prior snapshot) the claim requires
an empty diff, but the code stores a fixed placeholder message in the diff
field, so the diff is not empty even though the classification is Unseen. -/
theorem run_diff_counterexample :
    classificationOf "" (mainRun "" "" "hello" 20000 "u" "t" "l").cur_hash =
      Classification.Unseen
    ∧ (mainRun "" "" "hello" 20000 "u" "t" "l").diff_text ≠ "" := by
  refine ⟨rfl, ?_⟩
  show ("(no previous snapshot yet — run once more to compare)" : String) ≠ ""
  decide

/-- Witness for `run_classification_and_diff` at a concrete input. -/
theorem run_classification_and_diff_witness :
    ("a" : String) ≠ ""
    ∧ (∀ c ∈ (strTake "a" 5000).data, isLineBoundary c = false)
    ∧ strTake "a" 5000 = strTake (mainRun "a" "" "a" 100 "u" "t" "l").cur_text 5000
    ∧ (mainRun "a" "" "a" 100 "u" "t" "l").diff_text = "" :=
  ⟨by decide, by decide, by decide,
    (run_classification_and_diff "a" "" "a" 100 "u" "t" "l").2.2.2.2.1
      (by decide) (by decide) (by decide)⟩
